import Mathlib

/-!
Verification of the FISHscale spatial boundaries module
(FISHscale/spatial/boundaries.py).

Shallow embedding over exact rationals of the grid-bisection pipeline
(`square_grid`, `_worker_bisect`, `_worker_angle`, the validity-mask
computation and the normalization branch of `boundaries_make`) and of the
final masking step of `_LBP_worker`.  Float coordinates and counts are
modelled as `ℚ`/`ℕ`; python exceptions are modelled with `Except String`;
a float array that may hold NaN is modelled as `Option ℚ` valued
(`none` = NaN, `some q` = the finite value `q`).
-/

/-- Points with exact rational XY coordinates (exact model of the float
coordinates handled by the code). -/
abbrev Pt : Type := ℚ × ℚ

/-- Squared euclidean distance between two points.  Used to express the
KDTree radius test without a square root: for `0 ≤ r`,
`dist ≤ r ↔ dist2 ≤ r ^ 2`. -/
def dist2 (a b : Pt) : ℚ := (a.1 - b.1) ^ 2 + (a.2 - b.2) ^ 2

/-- Membership test of `sklearn.neighbors.KDTree.query_radius`: the query
returns the points whose euclidean distance to the grid point is at most
`r` (inclusive).  A negative radius selects nothing. -/
def inRadius (g : Pt) (r : ℚ) (p : Pt) : Bool :=
  decide (0 ≤ r) && decide (dist2 p g ≤ r ^ 2)

/-- Two-dimensional `np.cross` of two 2-vectors: the scalar
`u.x * v.y - u.y * v.x`. -/
def cross2 (u v : Pt) : ℚ := u.1 * v.2 - u.2 * v.1

/-- The `isabove` helper of `_worker_bisect`:
`np.cross(p - line[0], line[1] - line[0]) < 0`. -/
def isabove (p : Pt) (line : Pt × Pt) : Bool :=
  decide (cross2 (p - line.1) (line.2 - line.1) < 0)

/-- One row of `tree.query_radius(grid, radius)`: the points of the gene
within `radius` of the grid point `g` (order preserved from `points`). -/
def radiusQuery (points : List Pt) (g : Pt) (r : ℚ) : List Pt :=
  points.filter (inRadius g r)

/-- Embedding of `_worker_bisect` (boundaries.py lines 22–78).  Builds the
KDTree over the gene's points, queries every grid point for the points
within `radius`, and for each bisection line counts how many of the
centered points are classified above it.  Returns
`(angle_counts, count)`: per grid point, the per-line above-counts and the
total count.  `sklearn.neighbors.KDTree` rejects an input with zero
samples (`check_array` requires a minimum of 1), hence the error case for
an empty point set.  The orchestrator always passes `n_angles` equal to
`len(lines)`, so the `angle_counts` width is taken from `lines`. -/
def worker_bisect (points : List Pt) (grid : List Pt) (radius : ℚ)
    (lines : List (Pt × Pt)) : Except String (List (List ℕ) × List ℕ) :=
  if points = [] then
    .error "ValueError: Found array with 0 sample(s) while a minimum of 1 is required"
  else
    .ok
      (grid.map (fun g =>
        lines.map (fun l =>
          ((radiusQuery points g radius).filter (fun p => isabove (p - g) l)).length)),
       grid.map (fun g => (radiusQuery points g radius).length))

/-- Embedding of `np.linspace lo hi num` (endpoint included): `num` samples
`lo + i * (hi - lo) / (num - 1)`; a single sample is `lo`; zero samples is
the empty list.  (`num = 1` makes the divisor `0` and rational division by
zero is `0`, which matches numpy returning `[lo]`.) -/
def linspace (lo hi : ℚ) (num : ℕ) : List ℚ :=
  (List.range num).map (fun i => lo + (hi - lo) * i / ((num : ℚ) - 1))

/-- Row-major ravel of `np.meshgrid(xi, yi)` stacked into XY columns
(boundaries.py lines 156–157): the grid point list
`[(x, y) for y in yi for x in xi]` (`Xi` varies fastest along x). -/
def meshgridRavel (xi yi : List ℚ) : List Pt :=
  yi.flatMap (fun y => xi.map (fun x => (x, y)))

/-- Embedding of `Boundaries.square_grid` (boundaries.py lines 125–159).
Computes `n = ceil(extent / bin_size)` per axis, the padding
`d = n * bin_size - extent`, and the axis values
`linspace(min - d/2, max + d/2, n)`; the grid is the row-major ravel of
the meshgrid.  Python raises `ZeroDivisionError` on `extent / 0`, and
`np.linspace` raises `ValueError` when the number of samples is negative
(which happens for a negative `bin_size`); both are modelled as errors. -/
def square_grid (bin_size x_extent y_extent x_min x_max y_min y_max : ℚ) :
    Except String (List Pt × List ℚ × List ℚ) :=
  if bin_size = 0 then .error "ZeroDivisionError: float division by zero"
  else
    let nx : ℤ := Int.ceil (x_extent / bin_size)
    let ny : ℤ := Int.ceil (y_extent / bin_size)
    if nx < 0 ∨ ny < 0 then
      .error "ValueError: Number of samples must be non-negative"
    else
      let dx : ℚ := nx * bin_size - x_extent
      let dy : ℚ := ny * bin_size - y_extent
      let xi := linspace (x_min - dx / 2) (x_max + dx / 2) nx.toNat
      let yi := linspace (y_min - dy / 2) (y_max + dy / 2) ny.toNat
      .ok (meshgridRavel xi yi, xi, yi)

/-- C1: the spec and the docstring of `square_grid` promise that the
spacing between consecutive grid coordinates equals `bin_size`, but the
code asks `np.linspace` for `nx = ceil(extent / bin_size)` samples over a
span of `nx * bin_size`, so the spacing is `nx * bin_size / (nx - 1)`.
Failing input: `bin_size = 1`, extent `[0, 2]` on both axes.  The x axis
coordinates are `[0, 2]`: consecutive coordinates are `2` apart, not
`bin_size = 1`. -/
theorem square_grid_spacing_at_failing_input :
    square_grid 1 2 2 0 2 0 2 =
      Except.ok ([((0 : ℚ), (0 : ℚ)), (2, 0), (0, 2), (2, 2)],
        [(0 : ℚ), 2], [(0 : ℚ), 2]) ∧
    ((2 : ℚ) - 0 ≠ 1) := by
  refine ⟨?_, by norm_num⟩
  have hc : Int.ceil ((2 : ℚ) / 1) = 2 := by norm_num
  have hl : linspace 0 2 (Int.toNat 2) = [0, 2] := by
    show linspace _ _ 2 = _
    simp only [linspace, List.range_succ, List.range_zero]
    norm_num
  simp only [square_grid, hc]
  norm_num [meshgridRavel, hl]

/-- Flattened per-grid-point summed counts `count_matrix.sum(axis=0)`:
`counts` holds one per-grid-point total-count vector per gene
(boundaries.py line 236–238). -/
def sumCounts (counts : List (List ℕ)) (k : ℕ) : ℕ :=
  (counts.map (fun row => row.getD k 0)).sum

/-- The pre-erosion validity mask `filt = count_matrix.sum(axis=0) > 0`
reshaped to the 2D grid shape `(rows, cols)` (boundaries.py lines 238–240):
entry `(i, j)` is flat entry `i * cols + j`; out-of-range entries are
false. -/
def baseMask (counts : List (List ℕ)) (rows cols : ℕ) : ℕ → ℕ → Bool :=
  fun i j =>
    decide (i < rows) && decide (j < cols) &&
      decide (0 < sumCounts counts (i * cols + j))

/-- One step of `scipy.ndimage.binary_erosion` with the default structuring
element (connectivity 1: the 4-connected cross) and `border_value = 0`: a
pixel survives iff it and its four edge neighbours are set, neighbours
beyond the border counting as unset. -/
def erode4Step (rows cols : ℕ) (m : ℕ → ℕ → Bool) : ℕ → ℕ → Bool :=
  fun i j =>
    m i j && (decide (0 < i) && m (i - 1) j) &&
      (decide (i + 1 < rows) && m (i + 1) j) &&
      (decide (0 < j) && m i (j - 1)) &&
      (decide (j + 1 < cols) && m i (j + 1))

/-- One step of 8-connected erosion (full 3×3 structuring element,
connectivity 2): the 4-connected step plus the four diagonal neighbours.
This is the erosion the spec describes. -/
def erode8Step (rows cols : ℕ) (m : ℕ → ℕ → Bool) : ℕ → ℕ → Bool :=
  fun i j =>
    erode4Step rows cols m i j &&
      (decide (0 < i) && decide (0 < j) && m (i - 1) (j - 1)) &&
      (decide (0 < i) && decide (j + 1 < cols) && m (i - 1) (j + 1)) &&
      (decide (i + 1 < rows) && decide (0 < j) && m (i + 1) (j - 1)) &&
      (decide (i + 1 < rows) && decide (j + 1 < cols) && m (i + 1) (j + 1))

/-- Erosion with scipy's `iterations` semantics: `iterations ≥ 1` applies
the step that many times; `iterations < 1` means "repeat until the result
does not change".  A step only clears pixels and every iterate is false
outside the `rows × cols` box, so the result is stable after at most
`rows * cols + 1` applications, which therefore computes that fixpoint. -/
def binary_erosion (rows cols : ℕ) (m : ℕ → ℕ → Bool) (iterations : ℤ) :
    ℕ → ℕ → Bool :=
  if 1 ≤ iterations then (erode4Step rows cols)^[iterations.toNat] m
  else (erode4Step rows cols)^[rows * cols + 1] m

/-- Row-major flattening `mask.ravel()` of a 2D boolean mask. -/
def ravelMask (rows cols : ℕ) (m : ℕ → ℕ → Bool) : List Bool :=
  (List.range (rows * cols)).map (fun k => m (k / cols) (k % cols))

/-- The validity filter of `boundaries_make` (boundaries.py lines 236–242):
`filt = count_matrix.sum(axis=0) > 0`, reshaped to the grid's 2D shape,
eroded by `binary_erosion(..., iterations=math.ceil(radius / bin_size))`
with scipy's default 4-connected structuring element, and raveled back. -/
def validity_filt (counts : List (List ℕ)) (rows cols : ℕ)
    (radius bin_size : ℚ) : List Bool :=
  ravelMask rows cols
    (binary_erosion rows cols (baseMask counts rows cols)
      (Int.ceil (radius / bin_size)))

/-- Modelled from the spec (the claim's wording): the same mask pipeline
but with `ceil(radius / bin_size)` iterations of 8-connected erosion. -/
def validity_filt_spec8 (counts : List (List ℕ)) (rows cols : ℕ)
    (radius bin_size : ℚ) : List Bool :=
  ravelMask rows cols
    ((erode8Step rows cols)^[(Int.ceil (radius / bin_size)).toNat]
      (baseMask counts rows cols))

/-- Reading the ravel of a 2D mask back at flat index `i * cols + j`
recovers the 2D entry. -/
theorem ravelMask_getD (rows cols : ℕ) (m : ℕ → ℕ → Bool) (i j : ℕ)
    (hi : i < rows) (hj : j < cols) :
    (ravelMask rows cols m).getD (i * cols + j) false = m i j := by
  have hcols : 0 < cols := by omega
  have hk : i * cols + j < rows * cols := by
    calc i * cols + j < i * cols + cols := by omega
      _ = (i + 1) * cols := by ring
      _ ≤ rows * cols := Nat.mul_le_mul_right _ (by omega)
  have hrw : i * cols + j = j + cols * i := by ring
  have hdiv : (i * cols + j) / cols = i := by
    rw [hrw, Nat.add_mul_div_left _ _ hcols, Nat.div_eq_of_lt hj, Nat.zero_add]
  have hmod : (i * cols + j) % cols = j := by
    rw [hrw, Nat.add_mul_mod_self_left, Nat.mod_eq_of_lt hj]
  rw [ravelMask, List.getD_eq_getElem?_getD, List.getElem?_map,
    List.getElem?_range hk]
  simp [hdiv, hmod]

/-- C2 counterexample: the code erodes with scipy's default 4-connected
structuring element, not the 8-connected erosion the claim states.  For one
gene with totals `[0,1,0,1,1,1,0,1,0]` on a 3×3 grid and
`ceil(radius/bin_size) = 1`, the centre point (flat index 4) survives the
code's 4-connected erosion but not the claimed 8-connected erosion. -/
theorem validity_filt_not_eight_connected :
    (validity_filt [[0, 1, 0, 1, 1, 1, 0, 1, 0]] 3 3 1 1).getD 4 false = true ∧
    (validity_filt_spec8 [[0, 1, 0, 1, 1, 1, 0, 1, 0]] 3 3 1 1).getD 4 false
      = false := by
  have hc : Int.ceil ((1 : ℚ) / 1) = 1 := by norm_num
  rw [validity_filt, validity_filt_spec8, hc]
  decide

/-- C2 amended: in `boundaries_make` the validity mask is true exactly at
grid points whose summed gene count is nonzero, reshaped to the grid's 2D
shape, eroded by `ceil(radius/bin_size)` iterations of 4-CONNECTED
morphological erosion (scipy's default structuring element, border treated
as invalid), and flattened: the flat filter entry at `i * cols + j` is the
`ceil(radius/bin_size)`-fold 4-connected erosion of the nonzero-sum mask
at `(i, j)`. -/
theorem validity_filt_four_connected (counts : List (List ℕ))
    (rows cols i j : ℕ) (radius bin_size : ℚ) (hi : i < rows) (hj : j < cols)
    (hone : 1 ≤ Int.ceil (radius / bin_size)) :
    (validity_filt counts rows cols radius bin_size).getD (i * cols + j) false
      = (erode4Step rows cols)^[(Int.ceil (radius / bin_size)).toNat]
          (baseMask counts rows cols) i j := by
  rw [validity_filt, binary_erosion, if_pos hone]
  exact ravelMask_getD _ _ _ _ _ hi hj

/-- Witness for `validity_filt_four_connected` at a concrete input. -/
theorem validity_filt_four_connected_witness :
    (validity_filt [[1]] 1 1 1 1).getD (0 * 1 + 0) false
      = (erode4Step 1 1)^[(Int.ceil ((1 : ℚ) / 1)).toNat]
          (baseMask [[1]] 1 1) 0 0 :=
  validity_filt_four_connected [[1]] 1 1 0 0 1 1 (by decide) (by decide)
    (by norm_num)

/-- Collection of the per-gene worker results, as `dask.compute` does: all
results in submission order, the first failing worker aborting the batch
with its error. -/
def collectResults {α β : Type} (f : α → Except String β) :
    List α → Except String (List β)
  | [] => .ok []
  | a :: as =>
    match f a, collectResults f as with
    | .error e, _ => .error e
    | .ok _, .error e => .error e
    | .ok b, .ok bs => .ok (b :: bs)

/-- Phase 1 of `boundaries_make` (boundaries.py lines 205–247): build the
grid with `square_grid`, run `_worker_bisect` for every gene, stack the
per-gene totals into the count matrix and compute the validity filter; the
grid's 2D shape is `(len(yi), len(xi))`.  The parameter handling at lines
205–214 performs no validation whatsoever of `bin_size` or `radius`. -/
def boundaries_phase1 (genePoints : List (List Pt)) (bin_size radius : ℚ)
    (lines : List (Pt × Pt)) (x_extent y_extent x_min x_max y_min y_max : ℚ) :
    Except String (List Bool) :=
  match square_grid bin_size x_extent y_extent x_min x_max y_min y_max with
  | .error e => .error e
  | .ok g =>
    match collectResults (fun pts => worker_bisect pts g.1 radius lines)
        genePoints with
    | .error e => .error e
    | .ok results =>
      .ok (validity_filt (results.map (fun r => r.2)) g.2.2.length
        g.2.1.length radius bin_size)

/-- Evaluation helper: `np.linspace` with a single sample returns the start
value. -/
theorem linspace_single (lo hi : ℚ) : linspace lo hi 1 = [lo] := by
  simp [linspace, List.range_succ]

/-- C3 counterexample: a call with the non-positive radius `0` (and
`bin_size = 1`) surfaces no error at all: phase 1 of `boundaries_make`
completes and returns a validity filter. -/
theorem boundaries_phase1_no_error_on_zero_radius :
    (boundaries_phase1 [[((1 : ℚ), (3 : ℚ))]] 1 0
      [(((1 : ℚ), (0 : ℚ)), ((0 : ℚ), (1 : ℚ)))] 1 1 1 2 3 4).isOk = true := by
  have hc : Int.ceil ((1 : ℚ) / 1) = 1 := by norm_num
  have hsg : square_grid 1 1 1 1 2 3 4 =
      Except.ok ([((1 : ℚ), (3 : ℚ))], [(1 : ℚ)], [(3 : ℚ)]) := by
    simp only [square_grid, hc]
    norm_num [meshgridRavel, linspace_single, Int.toNat_one]
  have hwb : worker_bisect [((1 : ℚ), (3 : ℚ))] [((1 : ℚ), (3 : ℚ))] 0
      [(((1 : ℚ), (0 : ℚ)), ((0 : ℚ), (1 : ℚ)))] = Except.ok ([[1]], [1]) := by
    norm_num [worker_bisect, radiusQuery, inRadius, dist2, isabove, cross2,
      List.filter_cons]
  have hvf : validity_filt [[1]] 1 1 0 1 = [false] := by
    have hc0 : Int.ceil ((0 : ℚ) / 1) = 0 := by norm_num
    rw [validity_filt, hc0]
    decide
  simp [boundaries_phase1, collectResults, hsg, hwb, hvf, Except.isOk,
    Except.toBool]

/-- C3 amended: neither `boundaries_make` nor `square_grid` validates
`bin_size` or `radius`.  With the non-positive radius `0` the computation
proceeds and silently degrades: the single data point sitting exactly on
the grid point is found (total count 1), but the erosion runs to its
fixpoint and yields the all-false validity mask, so phase 1 returns
`ok [false]` instead of an error.  A `bin_size` of `0` only fails
incidentally, with a `ZeroDivisionError` from `extent / bin_size`, not
with a validation error. -/
theorem boundaries_phase1_silent_degrade :
    boundaries_phase1 [[((1 : ℚ), (3 : ℚ))]] 1 0
      [(((1 : ℚ), (0 : ℚ)), ((0 : ℚ), (1 : ℚ)))] 1 1 1 2 3 4 =
      Except.ok [false] ∧
    square_grid 0 1 1 1 2 3 4 =
      Except.error "ZeroDivisionError: float division by zero" := by
  constructor
  · have hc : Int.ceil ((1 : ℚ) / 1) = 1 := by norm_num
    have hsg : square_grid 1 1 1 1 2 3 4 =
        Except.ok ([((1 : ℚ), (3 : ℚ))], [(1 : ℚ)], [(3 : ℚ)]) := by
      simp only [square_grid, hc]
      norm_num [meshgridRavel, linspace_single, Int.toNat_one]
    have hwb : worker_bisect [((1 : ℚ), (3 : ℚ))] [((1 : ℚ), (3 : ℚ))] 0
        [(((1 : ℚ), (0 : ℚ)), ((0 : ℚ), (1 : ℚ)))] = Except.ok ([[1]], [1]) := by
      norm_num [worker_bisect, radiusQuery, inRadius, dist2, isabove, cross2,
        List.filter_cons]
    have hvf : validity_filt [[1]] 1 1 0 1 = [false] := by
      have hc0 : Int.ceil ((0 : ℚ) / 1) = 0 := by norm_num
      rw [validity_filt, hc0]
      decide
    simp [boundaries_phase1, collectResults, hsg, hwb, hvf]
  · simp [square_grid]

/-- Reading a mapped list at an in-range index yields the function applied
to the underlying element. -/
theorem map_getD_lt {α β : Type} (f : α → β) (l : List α) (i : ℕ) (d : β)
    (h : i < l.length) : (l.map f).getD i d = f l[i] := by
  simp [List.getD_eq_getElem?_getD, List.getElem?_map, List.getElem?_eq_getElem h]

/-- C4 counterexample: a gene with zero points makes `_worker_bisect` fail:
`KDTree(points)` rejects an input with zero samples, so the error
propagates to the caller instead of being substituted by a neutral 0. -/
theorem worker_bisect_empty_points_error :
    worker_bisect [] [((1 : ℚ), (3 : ℚ))] 200 [] =
      Except.error
        "ValueError: Found array with 0 sample(s) while a minimum of 1 is required" :=
  rfl

/-- C4 amended: the neutral-zero substitution applies per grid point, not to
an empty gene.  For an empty point set the worker fails at the spatial
index construction; for a NON-empty point set it never fails and returns
one angle-count row and one total per grid point (grid points without
points in radius getting zeros, see the empty-query theorem). -/
theorem worker_bisect_nonempty_ok (points grid : List Pt) (radius : ℚ)
    (lines : List (Pt × Pt)) (hne : points ≠ []) :
    ∃ ac cnt, worker_bisect points grid radius lines = Except.ok (ac, cnt) ∧
      ac.length = grid.length ∧ cnt.length = grid.length := by
  rw [worker_bisect, if_neg hne]
  exact ⟨_, _, rfl, by simp, by simp⟩

/-- Witness for `worker_bisect_nonempty_ok` at a concrete input. -/
theorem worker_bisect_nonempty_ok_witness :
    ∃ ac cnt, worker_bisect [((1 : ℚ), (3 : ℚ))] [((1 : ℚ), (3 : ℚ))] 200 []
        = Except.ok (ac, cnt) ∧ ac.length = [((1 : ℚ), (3 : ℚ))].length ∧
      cnt.length = [((1 : ℚ), (3 : ℚ))].length :=
  worker_bisect_nonempty_ok _ _ _ _ (by simp)

/-- C8: for a non-empty point set, a grid point whose radius query returns
no points produces the all-zero row in the above-count matrix and total
count 0, and the worker still succeeds. -/
theorem worker_bisect_empty_query_zero_row (points grid : List Pt)
    (radius : ℚ) (lines : List (Pt × Pt)) (i : ℕ) (g : Pt)
    (hne : points ≠ []) (hg : grid[i]? = some g)
    (hempty : radiusQuery points g radius = []) :
    ∃ ac cnt, worker_bisect points grid radius lines = Except.ok (ac, cnt) ∧
      ac[i]? = some (List.replicate lines.length 0) ∧
      cnt[i]? = some 0 := by
  rw [worker_bisect, if_neg hne]
  refine ⟨_, _, rfl, ?_, ?_⟩
  · rw [List.getElem?_map, hg]
    simp [hempty, List.map_const']
  · rw [List.getElem?_map, hg]
    simp [hempty]

/-- Witness for `worker_bisect_empty_query_zero_row` at a concrete input:
the point (5, 5) is farther than radius 1 from the grid point (0, 3). -/
theorem worker_bisect_empty_query_zero_row_witness :
    ∃ ac cnt, worker_bisect [((5 : ℚ), (5 : ℚ))] [((0 : ℚ), (3 : ℚ))] 1 []
        = Except.ok (ac, cnt) ∧
      ac[0]? = some ([] : List ℕ) ∧ cnt[0]? = some 0 :=
  worker_bisect_empty_query_zero_row _ _ _ _ 0 ((0 : ℚ), (3 : ℚ)) (by simp)
    (by simp) (by norm_num [radiusQuery, inRadius, dist2, List.filter_cons])

/-- C10: the above-count of a grid point at any angle never exceeds that
grid point's total in-radius count (each counted point is drawn from the
same radius query), so the derived below count `total - above` is never
negative. -/
theorem worker_bisect_above_le_total (points grid : List Pt) (radius : ℚ)
    (lines : List (Pt × Pt)) (i j : ℕ) (hne : points ≠ [])
    (hi : i < grid.length) (hj : j < lines.length) :
    ∃ ac cnt, worker_bisect points grid radius lines = Except.ok (ac, cnt) ∧
      (ac.getD i []).getD j 0 ≤ cnt.getD i 0 ∧
      (0 : ℤ) ≤ (cnt.getD i 0 : ℤ) - ((ac.getD i []).getD j 0 : ℤ) := by
  rw [worker_bisect, if_neg hne]
  have hle :
      (((grid.map (fun g =>
          lines.map (fun l =>
            ((radiusQuery points g radius).filter
              (fun p => isabove (p - g) l)).length))).getD i []).getD j 0)
        ≤ (grid.map (fun g => (radiusQuery points g radius).length)).getD i 0 := by
    rw [map_getD_lt _ _ _ _ hi, map_getD_lt _ _ _ _ hi, map_getD_lt _ _ _ _ hj]
    exact List.length_filter_le _ _
  exact ⟨_, _, rfl, hle, by omega⟩

/-- Witness for `worker_bisect_above_le_total` at a concrete input. -/
theorem worker_bisect_above_le_total_witness :
    ∃ ac cnt, worker_bisect [((1 : ℚ), (3 : ℚ))] [((1 : ℚ), (3 : ℚ))] 2
        [(((1 : ℚ), (0 : ℚ)), ((0 : ℚ), (1 : ℚ)))] = Except.ok (ac, cnt) ∧
      (ac.getD 0 []).getD 0 0 ≤ cnt.getD 0 0 ∧
      (0 : ℤ) ≤ (cnt.getD 0 0 : ℤ) - ((ac.getD 0 []).getD 0 0 : ℤ) :=
  worker_bisect_above_le_total _ _ _ _ 0 0 (by simp) (by simp) (by simp)

/-- The image construction of `boundaries_make` (boundaries.py lines
282–283), flattened row-major: start from `np.zeros(shape)` and perform
the boolean-mask assignment `image[filt_grid] = results2[:, 0]`, which
walks the mask in row-major order and consumes one value per true
position.  (The orchestrator always supplies exactly one value per true
position; shorter value lists leave the zero in place here, where numpy
would raise a shape mismatch.) -/
def scatter_code : List Bool → List ℚ → List ℚ
  | [], _ => []
  | false :: ms, vs => 0 :: scatter_code ms vs
  | true :: ms, [] => 0 :: scatter_code ms []
  | true :: ms, v :: vs => v :: scatter_code ms vs

/-- Number of true mask entries strictly before flat position `k`. -/
def rankTrue (ms : List Bool) (k : ℕ) : ℕ := ((ms.take k).filter id).length

/-- Modelled from the spec: rasterize the result column into an all-zero
image of the grid's shape at the positions where the validity mask is
true — entry `k` is the `rankTrue ms k`-th result value where the mask is
true and `0` elsewhere. -/
def scatter_spec (ms : List Bool) (vs : List ℚ) : List ℚ :=
  (List.range ms.length).map
    (fun k => if ms.getD k false then vs.getD (rankTrue ms k) 0 else 0)

/-- Rank of a position after a leading unset mask entry. -/
theorem rankTrue_cons_false (ms : List Bool) (k : ℕ) :
    rankTrue (false :: ms) (k + 1) = rankTrue ms k := by
  simp [rankTrue, List.take_succ_cons]

/-- Rank of a position after a leading set mask entry. -/
theorem rankTrue_cons_true (ms : List Bool) (k : ℕ) :
    rankTrue (true :: ms) (k + 1) = 1 + rankTrue ms k := by
  simp [rankTrue, List.take_succ_cons, Nat.add_comm]

/-- Unfolding of the spec-side scatter along a leading mask entry. -/
theorem scatter_spec_cons (b : Bool) (ms : List Bool) (vs : List ℚ) :
    scatter_spec (b :: ms) vs =
      (if b then vs.getD 0 0 else 0) ::
        scatter_spec ms (if b then vs.drop 1 else vs) := by
  cases b with
  | false =>
    rw [scatter_spec, scatter_spec, List.length_cons, List.range_succ_eq_map,
      List.map_cons, List.map_map, List.cons_eq_cons]
    refine ⟨by simp [rankTrue], ?_⟩
    refine List.map_congr_left ?_
    intro k _
    simp [List.getD_cons_succ, rankTrue_cons_false]
  | true =>
    rw [scatter_spec, scatter_spec, List.length_cons, List.range_succ_eq_map,
      List.map_cons, List.map_map, List.cons_eq_cons]
    refine ⟨by simp [rankTrue], ?_⟩
    refine List.map_congr_left ?_
    intro k _
    simp only [Function.comp_apply, List.getD_cons_succ, rankTrue_cons_true,
      if_true]
    by_cases hm : ms.getD k false
    · rw [if_pos hm, if_pos hm, List.getD_eq_getElem?_getD,
        List.getD_eq_getElem?_getD, List.getElem?_drop]
    · rw [if_neg hm, if_neg hm]

/-- The code's zeros-then-masked-assignment image equals the spec's
scatter description. -/
theorem scatter_code_eq_spec (ms : List Bool) (vs : List ℚ) :
    scatter_code ms vs = scatter_spec ms vs := by
  induction ms generalizing vs with
  | nil => simp [scatter_code, scatter_spec]
  | cons b ms ih =>
    rw [scatter_spec_cons]
    cases b with
    | false => simp [scatter_code, ih]
    | true => cases vs with
      | nil => simp [scatter_code, ih]
      | cons v vs => simp [scatter_code, ih]

/-- C5: rasterizing the first result column into an all-zero image of the
grid's original shape at the mask-true positions reproduces the code's
`image` output exactly, and every position outside the mask is exactly
0. -/
theorem scatter_roundtrip (ms : List Bool) (vs : List ℚ) :
    scatter_code ms vs = scatter_spec ms vs ∧
    ∀ k, ms.getD k false = false → (scatter_code ms vs).getD k 0 = 0 := by
  refine ⟨scatter_code_eq_spec ms vs, ?_⟩
  intro k hk
  rw [scatter_code_eq_spec ms vs]
  rcases Nat.lt_or_ge k ms.length with h | h
  · rw [scatter_spec, map_getD_lt _ _ _ _ (by simpa using h)]
    rw [List.getElem_range, hk]
    simp
  · refine List.getD_eq_default _ _ ?_
    simp [scatter_spec, h]

/-- Witness for `scatter_roundtrip` at a concrete input. -/
theorem scatter_roundtrip_witness :
    scatter_code [true, false] [5] = scatter_spec [true, false] [5] ∧
    (scatter_code [true, false] [5]).getD 1 0 = 0 :=
  ⟨(scatter_roundtrip [true, false] [5]).1,
   (scatter_roundtrip [true, false] [5]).2 1 rfl⟩

/-- The largest finite float64, which `np.nan_to_num` substitutes for a
positive infinity produced by `x / 0` with `x > 0`. -/
def floatMax : ℚ := 17976931348623157 * 10 ^ 292

/-- Model of `np.nan_to_num(x / y)` on float arrays: `0 / 0` gives NaN,
mapped to 0; `x / 0` with `x ≠ 0` gives an infinity, mapped to
`±floatMax`; any other division is exact. -/
def nan_to_num_div (x y : ℚ) : ℚ :=
  if y = 0 then (if x = 0 then 0 else if 0 < x then floatMax else -floatMax)
  else x / y

/-- Normalization branch of `boundaries_make` (boundaries.py lines
254–261), "above" stack: `stack = cm_norm * np.nan_to_num(stack /
cm_repeat)`, indexed (gene, grid point, angle).  `cm_repeat` broadcasts
the total-count matrix across angles and `cm_norm` broadcasts
`self.normalize(count_matrix)`; the normalization itself is the dataset
collaborator's opaque routine, so the normalized matrix is a parameter. -/
def norm_stack (cm_norm : ℕ → ℕ → ℚ) (stack : ℕ → ℕ → ℕ → ℕ)
    (cm : ℕ → ℕ → ℕ) : ℕ → ℕ → ℕ → ℚ :=
  fun g p a => cm_norm g p * nan_to_num_div (stack g p a) (cm g p)

/-- Normalization branch, "below" stack: `stack_other = cm_norm *
np.nan_to_num(stack_other / cm_repeat)` with
`stack_other = cm_repeat - stack` (boundaries.py lines 252, 261). -/
def norm_stack_other (cm_norm : ℕ → ℕ → ℚ) (stack : ℕ → ℕ → ℕ → ℕ)
    (cm : ℕ → ℕ → ℕ) : ℕ → ℕ → ℕ → ℚ :=
  fun g p a =>
    cm_norm g p * nan_to_num_div ((cm g p : ℚ) - stack g p a) (cm g p)

/-- Modelled from the spec (the claim's wording), "above" stack: the
normalized matrix times the fraction above/total, the fraction replaced
by 0 wherever the total is 0. -/
def norm_stack_spec (cm_norm : ℕ → ℕ → ℚ) (stack : ℕ → ℕ → ℕ → ℕ)
    (cm : ℕ → ℕ → ℕ) : ℕ → ℕ → ℕ → ℚ :=
  fun g p a =>
    cm_norm g p * (if cm g p = 0 then 0 else (stack g p a : ℚ) / cm g p)

/-- Modelled from the spec (the claim's wording), "below" stack. -/
def norm_stack_other_spec (cm_norm : ℕ → ℕ → ℚ) (stack : ℕ → ℕ → ℕ → ℕ)
    (cm : ℕ → ℕ → ℕ) : ℕ → ℕ → ℕ → ℚ :=
  fun g p a =>
    cm_norm g p *
      (if cm g p = 0 then 0 else ((cm g p : ℚ) - stack g p a) / cm g p)

/-- C7: whenever the above-count never exceeds the total (the worker
invariant), the division never hits `x / 0` with `x ≠ 0`, so `nan_to_num`
only ever turns the `0 / 0` NaN into 0: the normalized above and below
stacks equal the normalized count matrix (broadcast across angles) times
the fraction above/total (resp. below/total), zeroed where total = 0. -/
theorem norm_stack_fraction (cm_norm : ℕ → ℕ → ℚ) (stack : ℕ → ℕ → ℕ → ℕ)
    (cm : ℕ → ℕ → ℕ) (h : ∀ g p a, stack g p a ≤ cm g p) :
    norm_stack cm_norm stack cm = norm_stack_spec cm_norm stack cm ∧
    norm_stack_other cm_norm stack cm
      = norm_stack_other_spec cm_norm stack cm := by
  constructor <;> funext g p a <;> by_cases hcm : cm g p = 0
  · have hs : stack g p a = 0 := Nat.le_antisymm (hcm ▸ h g p a) (Nat.zero_le _)
    simp [norm_stack, norm_stack_spec, nan_to_num_div, hcm, hs]
  · have hq : ((cm g p : ℚ)) ≠ 0 := Nat.cast_ne_zero.mpr hcm
    simp [norm_stack, norm_stack_spec, nan_to_num_div, hcm, hq]
  · have hs : stack g p a = 0 := Nat.le_antisymm (hcm ▸ h g p a) (Nat.zero_le _)
    simp [norm_stack_other, norm_stack_other_spec, nan_to_num_div, hcm, hs]
  · have hq : ((cm g p : ℚ)) ≠ 0 := Nat.cast_ne_zero.mpr hcm
    simp [norm_stack_other, norm_stack_other_spec, nan_to_num_div, hcm, hq]

/-- Witness for `norm_stack_fraction` at a concrete input. -/
theorem norm_stack_fraction_witness :
    norm_stack (fun _ _ => 1) (fun _ _ _ => 1) (fun _ _ => 2) =
      norm_stack_spec (fun _ _ => 1) (fun _ _ _ => 1) (fun _ _ => 2) ∧
    norm_stack_other (fun _ _ => 1) (fun _ _ _ => 1) (fun _ _ => 2) =
      norm_stack_other_spec (fun _ _ => 1) (fun _ _ _ => 1) (fun _ _ => 2) :=
  norm_stack_fraction _ _ _ (fun _ _ _ => by norm_num)

/-- A float value that may be NaN: `none` models NaN, `some q` the finite
value `q`. -/
abbrev FloatVal : Type := Option ℚ

/-- The NaN cleanup of `_LBP_worker` (boundaries.py line 316):
`lbp[np.isnan(lbp)] = 0`. -/
def nanToZero (lbp : ℕ → FloatVal) : ℕ → FloatVal :=
  fun k => some ((lbp k).getD 0)

/-- The re-masking of `_LBP_worker` (boundaries.py line 317):
`lbp[~mask] = np.nan`. -/
def maskToNan (lbp : ℕ → FloatVal) (mask : ℕ → Bool) : ℕ → FloatVal :=
  fun k => if mask k then lbp k else none

/-- Final output of `_LBP_worker` (boundaries.py lines 315–319),
flattened: the texture image produced by the preceding denoise and
local-binary-pattern computation (floating-point library code, taken here
as the arbitrary input array `lbp`) is cleaned by replacing NaNs with 0
and then setting every pixel outside the validity mask to NaN. -/
def LBP_worker_out (lbp : ℕ → FloatVal) (mask : ℕ → Bool) : ℕ → FloatVal :=
  maskToNan (nanToZero lbp) mask

/-- C9: in the texture worker's final output every pixel outside the mask
is NaN, every pixel inside the mask is a finite value, and a NaN arising
from the texture computation inside the mask has been replaced by 0. -/
theorem LBP_worker_mask_semantics (lbp : ℕ → FloatVal) (mask : ℕ → Bool)
    (k : ℕ) :
    (mask k = false → LBP_worker_out lbp mask k = none) ∧
    (mask k = true → ∃ q, LBP_worker_out lbp mask k = some q) ∧
    (mask k = true → lbp k = none → LBP_worker_out lbp mask k = some 0) := by
  refine ⟨fun h => ?_, fun h => ?_, fun h hn => ?_⟩
  · simp [LBP_worker_out, maskToNan, h]
  · exact ⟨(lbp k).getD 0, by simp [LBP_worker_out, maskToNan, nanToZero, h]⟩
  · simp [LBP_worker_out, maskToNan, nanToZero, h, hn]

/-- Witness for `LBP_worker_mask_semantics` at a concrete input. -/
theorem LBP_worker_mask_semantics_witness :
    LBP_worker_out (fun _ => none) (fun k => decide (k = 0)) 1 = none ∧
    LBP_worker_out (fun _ => none) (fun k => decide (k = 0)) 0 = some 0 :=
  ⟨(LBP_worker_mask_semantics (fun _ => none) (fun k => decide (k = 0)) 1).1
      rfl,
   (LBP_worker_mask_semantics (fun _ => none) (fun k => decide (k = 0)) 0).2.2
      rfl rfl⟩

/-- Generic scan computing numpy's paired max/argmax: walk the list with
the running best value and its index, updating only on a STRICT
improvement, so the first occurrence of the maximum is kept.  `np.max`
and `np.argmax` of the same vector are the two components of the
result. -/
def argmaxGo {α : Type} [LinearOrder α] : List α → ℕ → ℕ → α → α × ℕ
  | [], _, bi, bv => (bv, bi)
  | x :: xs, i, bi, bv =>
    if bv < x then argmaxGo xs (i + 1) i x else argmaxGo xs (i + 1) bi bv

/-- Invariant of the max/argmax scan: starting from a processed prefix
`done` whose maximum is `bv`, first attained at `bi`, the scan over the
rest returns the maximum of the whole list and the first index attaining
it. -/
theorem argmaxGo_spec {α : Type} [LinearOrder α] (xs : List α) :
    ∀ (done : List α) (bi : ℕ) (bv : α), bi < done.length →
      done[bi]? = some bv →
      (∀ k : ℕ, ∀ y ∈ done[k]?, y ≤ bv) →
      (∀ k : ℕ, k < bi → ∀ y ∈ done[k]?, y < bv) →
      ((argmaxGo xs done.length bi bv).2 < (done ++ xs).length ∧
        (done ++ xs)[(argmaxGo xs done.length bi bv).2]?
          = some (argmaxGo xs done.length bi bv).1 ∧
        (∀ k : ℕ, ∀ y ∈ (done ++ xs)[k]?,
          y ≤ (argmaxGo xs done.length bi bv).1) ∧
        (∀ k : ℕ, k < (argmaxGo xs done.length bi bv).2 →
          ∀ y ∈ (done ++ xs)[k]?, y < (argmaxGo xs done.length bi bv).1)) := by
  induction xs with
  | nil =>
    intro done bi bv h1 h2 h3 h4
    simp only [argmaxGo, List.append_nil]
    exact ⟨h1, h2, h3, h4⟩
  | cons x xs ih =>
    intro done bi bv h1 h2 h3 h4
    have hsucc : (done ++ [x]).length = done.length + 1 := by simp
    have happ : (done ++ [x]) ++ xs = done ++ (x :: xs) := by
      rw [List.append_assoc, List.singleton_append]
    rw [argmaxGo]
    by_cases hlt : bv < x
    · rw [if_pos hlt]
      have h1' : done.length < (done ++ [x]).length := by simp
      have h2' : (done ++ [x])[done.length]? = some x := by
        rw [List.getElem?_append_right (le_refl _)]
        simp
      have h3' : ∀ k : ℕ, ∀ y ∈ (done ++ [x])[k]?, y ≤ x := by
        intro k y hy
        rcases Nat.lt_or_ge k done.length with hk | hk
        · rw [List.getElem?_append_left hk] at hy
          exact le_of_lt (lt_of_le_of_lt (h3 k y hy) hlt)
        · rw [List.getElem?_append_right hk] at hy
          rcases Nat.lt_or_ge (k - done.length) 1 with hk1 | hk1
          · interval_cases h : k - done.length
            · simp at hy
              exact le_of_eq hy.symm
          · rw [List.getElem?_eq_none (by simpa using hk1)] at hy
            simp at hy
      have h4' : ∀ k : ℕ, k < done.length → ∀ y ∈ (done ++ [x])[k]?, y < x := by
        intro k hk y hy
        rw [List.getElem?_append_left hk] at hy
        exact lt_of_le_of_lt (h3 k y hy) hlt
      have := ih (done ++ [x]) done.length x h1' h2' h3' h4'
      rw [hsucc, happ] at this
      exact this
    · rw [if_neg hlt]
      have hxle : x ≤ bv := not_lt.mp hlt
      have h1' : bi < (done ++ [x]).length := by simp; omega
      have h2' : (done ++ [x])[bi]? = some bv := by
        rw [List.getElem?_append_left h1]
        exact h2
      have h3' : ∀ k : ℕ, ∀ y ∈ (done ++ [x])[k]?, y ≤ bv := by
        intro k y hy
        rcases Nat.lt_or_ge k done.length with hk | hk
        · rw [List.getElem?_append_left hk] at hy
          exact h3 k y hy
        · rw [List.getElem?_append_right hk] at hy
          rcases Nat.lt_or_ge (k - done.length) 1 with hk1 | hk1
          · interval_cases h : k - done.length
            · simp at hy
              exact hy ▸ hxle
          · rw [List.getElem?_eq_none (by simpa using hk1)] at hy
            simp at hy
      have h4' : ∀ k : ℕ, k < bi → ∀ y ∈ (done ++ [x])[k]?, y < bv := by
        intro k hk y hy
        rw [List.getElem?_append_left (lt_trans hk h1)] at hy
        exact h4 k hk y hy
      have := ih (done ++ [x]) bi bv h1' h2' h3' h4'
      rw [hsucc, happ] at this
      exact this

/-- Euclidean distance `scipy.spatial.distance.euclidean` between the
"above" and "below" gene vectors at one angle: the square root of the sum
of squared per-gene differences (the float computation modelled exactly
over the reals; of finite inputs it is always finite, so the code's NaN
suppression never fires in exact arithmetic). -/
noncomputable def euclid (n_genes : ℕ) (v w : ℕ → ℝ) : ℝ :=
  Real.sqrt (∑ i ∈ Finset.range n_genes, (v i - w i) ^ 2)

/-- Embedding of `_worker_angle` (boundaries.py lines 80–97): for each
angle `j` the euclidean distance between the gene columns `d1[:, j]` and
`d2[:, j]` is computed, and the result is `(dist.max(), dist.argmax())`.
`np.max` of an empty vector raises, hence the error case for
`n_angles = 0`. -/
noncomputable def worker_angle (n_angles n_genes : ℕ) (d1 d2 : ℕ → ℕ → ℝ) :
    Except String (ℝ × ℕ) :=
  match (List.range n_angles).map
      (fun j => euclid n_genes (fun i => d1 i j) (fun i => d2 i j)) with
  | [] =>
    .error "ValueError: zero-size array to reduction operation maximum which has no identity"
  | x :: xs => .ok (argmaxGo xs 1 0 x)

/-- C6: the angle-selection worker returns the maximum over all angles of
the euclidean distance between the above-vector and below-vector across
genes, together with the index of the angle achieving that maximum,
breaking ties by the first occurrence (stable argmax). -/
theorem worker_angle_max_stable_argmax (n_angles n_genes : ℕ)
    (d1 d2 : ℕ → ℕ → ℝ) (hpos : 0 < n_angles) :
    ∃ m : ℝ, ∃ j : ℕ, worker_angle n_angles n_genes d1 d2 = Except.ok (m, j) ∧
      j < n_angles ∧
      euclid n_genes (fun i => d1 i j) (fun i => d2 i j) = m ∧
      (∀ k : ℕ, k < n_angles →
        euclid n_genes (fun i => d1 i k) (fun i => d2 i k) ≤ m) ∧
      (∀ k : ℕ, k < j →
        euclid n_genes (fun i => d1 i k) (fun i => d2 i k) < m) := by
  set f : ℕ → ℝ :=
    fun j => euclid n_genes (fun i => d1 i j) (fun i => d2 i j) with hf
  set l : List ℝ := (List.range n_angles).map f with hldef
  have hlen : l.length = n_angles := by simp [hldef]
  have hget : ∀ k : ℕ, k < n_angles → l[k]? = some (f k) := by
    intro k hk
    rw [hldef, List.getElem?_map, List.getElem?_range hk, Option.map_some']
  match hl : l with
  | [] =>
    simp at hlen
    omega
  | x :: xs =>
    have hworker : worker_angle n_angles n_genes d1 d2
        = Except.ok (argmaxGo xs 1 0 x) := by
      rw [worker_angle, ← hldef]
    have h2 : ([x] : List ℝ)[0]? = some x := rfl
    have h3 : ∀ k : ℕ, ∀ y ∈ ([x] : List ℝ)[k]?, y ≤ x := by
      intro k y hy
      match k with
      | 0 =>
        simp at hy
        exact le_of_eq hy.symm
      | _ + 1 => simp at hy
    have h4 : ∀ k : ℕ, k < 0 → ∀ y ∈ ([x] : List ℝ)[k]?, y < x := by
      intro k hk
      exact absurd hk (Nat.not_lt_zero k)
    have hspec := argmaxGo_spec xs [x] 0 x (by simp) h2 h3 h4
    rw [List.singleton_append] at hspec
    simp only [List.length_singleton] at hspec
    obtain ⟨hjlt, hjget, hle, hltj⟩ := hspec
    have hjn : (argmaxGo xs 1 0 x).2 < n_angles := by
      rw [hlen] at hjlt
      exact hjlt
    have hfj : f (argmaxGo xs 1 0 x).2 = (argmaxGo xs 1 0 x).1 :=
      Option.some.inj ((hget _ hjn).symm.trans hjget)
    refine ⟨(argmaxGo xs 1 0 x).1, (argmaxGo xs 1 0 x).2, hworker, hjn,
      hfj, ?_, ?_⟩
    · intro k hk
      exact hle k (f k) (hget k hk)
    · intro k hk
      exact hltj k hk (f k) (hget k (lt_trans hk hjn))

/-- Witness for `worker_angle_max_stable_argmax` at a concrete input. -/
theorem worker_angle_max_stable_argmax_witness :
    ∃ m : ℝ, ∃ j : ℕ,
      worker_angle 1 1 (fun _ _ => (0 : ℝ)) (fun _ _ => (0 : ℝ))
          = Except.ok (m, j) ∧ j < 1 ∧
        euclid 1 (fun _ => (0 : ℝ)) (fun _ => (0 : ℝ)) = m ∧
        (∀ k : ℕ, k < 1 →
          euclid 1 (fun _ => (0 : ℝ)) (fun _ => (0 : ℝ)) ≤ m) ∧
        (∀ k : ℕ, k < j →
          euclid 1 (fun _ => (0 : ℝ)) (fun _ => (0 : ℝ)) < m) :=
  worker_angle_max_stable_argmax 1 1 (fun _ _ => (0 : ℝ)) (fun _ _ => (0 : ℝ))
    (by norm_num)
